import Mathlib

/-!
Shallow embedding of the progression engine of the Warcraft-SP repository:
the `Entity` level bounds (`warcraft/entities/entity.py`), the `Skill`
callback registry (`warcraft/entities/skill.py`), the `Hero` XP/level state
machine and skill-point economy (`warcraft/entities/hero.py`), and the
two-subject event dispatcher (`warcraft/warcraft.py`).

Python integers are modelled as `Int`.  The class attribute `max_level`
defaults to `math.inf`; it is modelled as `Option Int`, where `none`
stands for `math.inf`.  Exceptions (`ValueError`, `TypeError`, `KeyError`)
are modelled by `Except WcError`.  Skill instances live in a heap
(`World.skill_heap`) addressed by `Ref`, so that Python's object identity
and aliasing (a hero mutating a skill instance passed to it) is explicit.
-/

set_option autoImplicit false

namespace Warcraft

/-- Errors raised by the source: `ValueError` from the entity level setter,
from `give_xp`/`take_xp` on negative amounts and from failed
upgrade/downgrade preconditions; `TypeError` from calling `Skill.__init__`
without its required `owner` argument; `KeyError` from an unmapped raw
event name.  `infiniteXpQuota` marks the corner where Python would add the
float `math.inf` to `xp` (only reachable when `level` exceeds a finite
`max_level`, which never happens in bounds-respecting states). -/
inductive WcError where
  | levelNegative
  | levelAboveMax
  | negativeAmountGive
  | negativeAmountTake
  | cannotUpgrade
  | cannotDowngrade
  | infiniteXpQuota
  | missingOwnerArgument
  | unmappedEventName
  deriving Repr, DecidableEq

/-- Notifications fired through `warcraft.listeners`
(`OnHeroLevelUp`, `OnHeroLevelDown`, `OnSkillUpgrade`, `OnSkillDowngrade`);
the hero level notifications carry the `levels` difference argument. -/
inductive Notif where
  | heroLevelUp (levels : Int)
  | heroLevelDown (levels : Int)
  | skillUpgrade
  | skillDowngrade
  deriving Repr, DecidableEq

/-- `max_level < value` where `max_level` may be `math.inf` (`none`):
`inf < value` is `False` in Python. -/
def maxLevelLt (max_level : Option Int) (value : Int) : Bool :=
  match max_level with
  | none => false
  | some m => decide (m < value)

/-- `level == max_level` where `max_level` may be `math.inf` (`none`):
an `int` never equals `math.inf`.  Embeds `Entity.on_max_level`
(`entity.py`). -/
def on_max_level (max_level : Option Int) (level : Int) : Bool :=
  match max_level with
  | none => false
  | some m => decide (level = m)

/-- `level ≤ max_level` as a proposition (`True` against `math.inf`);
this is the bound the entity level setter maintains. -/
def levelLeMax (max_level : Option Int) (level : Int) : Prop :=
  match max_level with
  | none => True
  | some m => level ≤ m

instance (m : Option Int) (l : Int) : Decidable (levelLeMax m l) := by
  unfold levelLeMax
  cases m <;> infer_instance

/-- The `Entity.level` setter (`entity.py`): reject a negative value, then
reject a value with `max_level < value`, otherwise commit the value. -/
def set_level_checked (max_level : Option Int) (value : Int) :
    Except WcError Int :=
  if value < 0 then .error .levelNegative
  else if maxLevelLt max_level value then .error .levelAboveMax
  else .ok value

/-- `Hero.xp_quota` (`hero.py`): `math.inf` (`none`) on max level,
otherwise `80 + 15 * level`. -/
def xp_quota (max_level : Option Int) (level : Int) : Option Int :=
  if on_max_level max_level level then none else some (80 + 15 * level)

/-- The `while` loop of `Hero.give_xp` (`hero.py`): while not on max level
and `xp ≥ xp_quota`, consume the quota and increment `_level` (the raw
field, not the checked setter). -/
def give_xp_loop (max_level : Option Int) (level xp : Int) : Int × Int :=
  if h : on_max_level max_level level = false ∧ 80 + 15 * level ≤ xp then
    give_xp_loop max_level (level + 1) (xp - (80 + 15 * level))
  else
    (level, xp)
termination_by ((6 - level).toNat, (xp - 15 * level - 79).toNat)
decreasing_by
  rcases h with ⟨-, hxp⟩
  rcases lt_or_le level 6 with hl | hl
  · exact Prod.Lex.left _ _ (by omega)
  · have h6 : (6 - (level + 1)).toNat = (6 - level).toNat := by omega
    rw [h6]
    exact Prod.Lex.right _ (by omega)

/-- The `while` loop of `Hero.take_xp` (`hero.py`): while `level > 0` and
`xp < 0`, decrement `level` through the checked setter and add the
`xp_quota` of the level being entered to `xp`. -/
def take_xp_loop (max_level : Option Int) (level xp : Int) :
    Except WcError (Int × Int) :=
  if h : 0 < level ∧ xp < 0 then
    match set_level_checked max_level (level - 1) with
    | .error e => .error e
    | .ok _ =>
      -- The setter committed `level - 1`, so the hero now reads its
      -- `xp_quota` at `level - 1` and the loop continues from there.
      match xp_quota max_level (level - 1) with
      | none => .error .infiniteXpQuota
      | some q => take_xp_loop max_level (level - 1) (xp + q)
  else
    .ok (level, xp)
termination_by level.toNat
decreasing_by omega

/-! ### Skill instances, the heap, and heroes -/

/-- A `Skill` instance (`skill.py`): its variant's `class_id` and static
`_event_callbacks` registry (event name to callback, callbacks identified
by `Nat`), its `max_level` bound and its current `level`. -/
structure SkillInst where
  class_id : String
  max_level : Option Int
  level : Int
  event_callbacks : List (String × Nat)
  deriving Repr, DecidableEq

/-- The heap of live skill instances; a `Ref` (index) stands for a Python
object reference, making aliasing between heroes explicit. -/
structure World where
  skill_heap : List SkillInst
  deriving Repr, DecidableEq

abbrev Ref := Nat

/-- Dereference a skill instance (out-of-range refs yield a dummy; all
states of interest only use in-range refs). -/
def getSkill (w : World) (r : Ref) : SkillInst :=
  w.skill_heap.getD r ⟨"", none, 0, []⟩

/-- Overwrite the instance behind `r` (`List.set` is a no-op out of range). -/
def setSkill (w : World) (r : Ref) (s : SkillInst) : World :=
  ⟨w.skill_heap.set r s⟩

/-- A `Hero` instance (`hero.py`): level, banked `xp`, and the ordered
`skills` dict mapping each skill `class_id` to the owned instance. -/
structure Hero where
  max_level : Option Int
  level : Int
  xp : Int
  skills : List (String × Ref)
  deriving Repr, DecidableEq

/-- Python's `key in dict` for the `skills` dict. -/
def skillsContains (skills : List (String × Ref)) (cid : String) : Bool :=
  skills.any (fun p => p.1 == cid)

/-- `Hero.skill_points` (`hero.py`):
`self.level - sum(skill.level for skill in self.skills.values())`. -/
def Hero.skill_points (h : Hero) (w : World) : Int :=
  h.level - (h.skills.map (fun p => (getSkill w p.2).level)).sum

/-- `Hero.give_xp` (`hero.py`): reject a negative amount with `ValueError`,
add the amount to `_xp`, run the level-up loop, and notify `OnHeroLevelUp`
once with the level difference when it is positive. -/
def Hero.give_xp (h : Hero) (amount : Int) : Except WcError (Hero × List Notif) :=
  if amount < 0 then .error .negativeAmountGive
  else
    let p := give_xp_loop h.max_level h.level (h.xp + amount)
    let notifs := if 0 < p.1 - h.level then [Notif.heroLevelUp (p.1 - h.level)] else []
    .ok ({ h with level := p.1, xp := p.2 }, notifs)

/-- `Hero.take_xp` (`hero.py`): reject a negative amount with `ValueError`,
subtract the amount from `_xp`, run the level-down loop, and notify
`OnHeroLevelDown` once with the level difference when it is positive. -/
def Hero.take_xp (h : Hero) (amount : Int) : Except WcError (Hero × List Notif) :=
  if amount < 0 then .error .negativeAmountTake
  else
    match take_xp_loop h.max_level h.level (h.xp - amount) with
    | .error e => .error e
    | .ok p =>
      let notifs := if 0 < h.level - p.1 then [Notif.heroLevelDown (h.level - p.1)] else []
      .ok ({ h with level := p.1, xp := p.2 }, notifs)

/-- `Hero.can_upgrade_skill` (`hero.py`):
`skill.class_id in self.skills and self.skill_points > 0 and not
skill.on_max_level()`.  The skill argument is an instance reference. -/
def Hero.can_upgrade_skill (h : Hero) (w : World) (r : Ref) : Bool :=
  skillsContains h.skills (getSkill w r).class_id
    && decide (0 < h.skill_points w)
    && !(on_max_level (getSkill w r).max_level (getSkill w r).level)

/-- `Hero.upgrade_skill` (`hero.py`): raise `ValueError` unless
`can_upgrade_skill`, else `skill.level += 1` (through the entity level
setter) and notify `OnSkillUpgrade`. -/
def Hero.upgrade_skill (h : Hero) (w : World) (r : Ref) :
    Except WcError (World × List Notif) :=
  if h.can_upgrade_skill w r then
    match set_level_checked (getSkill w r).max_level ((getSkill w r).level + 1) with
    | .error e => .error e
    | .ok v => .ok (setSkill w r { getSkill w r with level := v }, [.skillUpgrade])
  else .error .cannotUpgrade

/-- `Hero.can_downgrade_skill` (`hero.py`):
`skill.class_id in self.skills and skill.level > 0`. -/
def Hero.can_downgrade_skill (h : Hero) (w : World) (r : Ref) : Bool :=
  skillsContains h.skills (getSkill w r).class_id
    && decide (0 < (getSkill w r).level)

/-- `Hero.downgrade_skill` (`hero.py`): raise `ValueError` unless
`can_downgrade_skill`, else `skill.level -= 1` (through the entity level
setter) and notify `OnSkillDowngrade`. -/
def Hero.downgrade_skill (h : Hero) (w : World) (r : Ref) :
    Except WcError (World × List Notif) :=
  if h.can_downgrade_skill w r then
    match set_level_checked (getSkill w r).max_level ((getSkill w r).level - 1) with
    | .error e => .error e
    | .ok v => .ok (setSkill w r { getSkill w r with level := v }, [.skillDowngrade])
  else .error .cannotDowngrade

/-- Python dict lookup in the `_event_callbacks` registry. -/
def dictLookup (d : List (String × Nat)) (k : String) : Option Nat :=
  (d.find? (fun p => p.1 == k)).map (fun p => p.2)

/-- `Skill.execute` (`skill.py`): if the event name is a key of the
variant's `_event_callbacks`, invoke that callback (returned as
`some callback`); otherwise do nothing (`none`). -/
def SkillInst.execute (s : SkillInst) (event_name : String) : Option Nat :=
  dictLookup s.event_callbacks event_name

/-- `Hero.execute_skills` (`hero.py`): for each owned skill, in the
`skills` dict iteration order, if its level is at least one, call
`Skill.execute`.  The result is the trace of `execute` calls: the ref of
each skill on which `execute` was invoked, paired with the callback it
invoked (if any). -/
def Hero.execute_skills (h : Hero) (w : World) (event_name : String) :
    List (Ref × Option Nat) :=
  h.skills.filterMap (fun p =>
    if 0 < (getSkill w p.2).level then
      some (p.2, (getSkill w p.2).execute event_name)
    else none)

/-! ### The skill variant callback registry (`_SkillMeta`) -/

/-- Python dict assignment `d[k] = v`: overwrite in place if the key
exists (keeping its position), else append. -/
def dictInsert (d : List (String × Nat)) (k : String) (v : Nat) :
    List (String × Nat) :=
  if d.any (fun p => p.1 == k) then
    d.map (fun p => if p.1 == k then (k, v) else p)
  else d ++ [(k, v)]

/-- `_SkillMeta.__init__` (`skill.py`): iterate the class body's
attributes in declaration order (each modelled as a callback identifier
paired with the `_events` tuple the `callback` decorator attached), and
run `cls._event_callbacks[event_name] = attr` for each event name. -/
def build_event_callbacks (attrs : List (Nat × List String)) :
    List (String × Nat) :=
  attrs.foldl (fun d attr => attr.2.foldl (fun d en => dictInsert d en attr.1) d) []

/-! ### The `Entity` base class (`entity.py`) -/

structure Entity where
  max_level : Option Int
  level : Int
  deriving Repr, DecidableEq

/-- `Entity.__init__` (`entity.py`): stores the given level directly into
`_level`; no validation happens at construction time. -/
def Entity.init (max_level : Option Int) (level : Int) : Entity :=
  { max_level := max_level, level := level }

/-- The `Entity.level` setter on an entity value. -/
def Entity.set_level (e : Entity) (value : Int) : Except WcError Entity :=
  match set_level_checked e.max_level value with
  | .error er => .error er
  | .ok v => .ok { e with level := v }

/-- `Entity.on_max_level` on an entity value. -/
def Entity.onMaxLevel (e : Entity) : Bool :=
  on_max_level e.max_level e.level

/-! ### Hero construction (`_HeroMeta.__call__` and `Skill.__init__`) -/

/-- A skill variant as declared (`class_id`, `max_level`, registry). -/
structure SkillClassDef where
  class_id : String
  max_level : Option Int
  event_callbacks : List (String × Nat)
  deriving Repr, DecidableEq

/-- `Skill.__init__(self, owner, level=0)` (`skill.py`): the `owner`
parameter is required and dereferenced (`self.hero_id = owner.id`), so a
call that omits it is a `TypeError`; the caller's (possibly missing)
argument is modelled as an `Option` hero id. -/
def skill_init (cls : SkillClassDef) (owner : Option Int) :
    Except WcError SkillInst :=
  match owner with
  | none => .error .missingOwnerArgument
  | some _ =>
    .ok { class_id := cls.class_id, max_level := cls.max_level, level := 0,
          event_callbacks := cls.event_callbacks }

/-- `_HeroMeta.__call__` (`hero.py`): after instantiating the hero, run
`instance.skills[skill_class.class_id] = skill_class()` over the hero
class's `skill_classes` in declaration order — note that `skill_class()`
is called with no `owner` argument. -/
def hero_meta_call_skills (skill_classes : List SkillClassDef) :
    Except WcError (List (String × SkillInst)) :=
  skill_classes.foldlM
    (fun acc cls => (skill_init cls none).map (fun s => acc ++ [(cls.class_id, s)]))
    []

/-! ### The two-subject event dispatcher (`warcraft.py`) -/

/-- A raw game event: its name and the `userid`/`attacker` integer
variables.  Source games use userid `0` for "no attacker" (environmental
causes); Python's `not event['attacker']` is true exactly for `0`. -/
structure GameEvent where
  name : String
  userid : Int
  attacker : Int
  deriving Repr, DecidableEq

/-- The fixed table `_event_name_conversions` (`warcraft.py`), from a raw
two-subject event name to the (attacker, victim) semantic names. -/
def event_name_conversions (name : String) : Option (String × String) :=
  if name == "player_death" then some ("player_kill", "player_death")
  else if name == "player_hurt" then some ("player_attack", "player_victim")
  else none

/-- One `execute_skills` call made by the dispatcher: which player's hero
receives it, the semantic event name, and the `player` argument placed in
the event args at call time. -/
structure Dispatch where
  recipient : Int
  event_name : String
  player_arg : Int
  deriving Repr, DecidableEq

/-- `_execute_interaction_skills` (`warcraft.py`): return early (no
dispatch) when the attacker is falsy or equals the victim's userid;
otherwise translate the raw name through `_event_name_conversions`
(`KeyError` on an unmapped name) and dispatch to the attacker's hero with
the first semantic name and to the victim's hero with the second, each
with `event_args['player']` set to the acting player of that
perspective. -/
def execute_interaction_skills (e : GameEvent) :
    Except WcError (List Dispatch) :=
  if e.attacker == 0 || e.attacker == e.userid then .ok []
  else
    match event_name_conversions e.name with
    | none => .error .unmappedEventName
    | some names =>
      .ok [⟨e.attacker, names.1, e.attacker⟩, ⟨e.userid, names.2, e.userid⟩]

/-! ### The hero state machine as a transition system -/

/-- A hero together with the skill-instance heap. -/
structure State where
  world : World
  hero : Hero
  deriving Repr, DecidableEq

def State.give_xp (s : State) (amount : Int) :
    Except WcError (State × List Notif) :=
  match s.hero.give_xp amount with
  | .error e => .error e
  | .ok p => .ok ({ s with hero := p.1 }, p.2)

def State.take_xp (s : State) (amount : Int) :
    Except WcError (State × List Notif) :=
  match s.hero.take_xp amount with
  | .error e => .error e
  | .ok p => .ok ({ s with hero := p.1 }, p.2)

def State.upgrade_skill (s : State) (r : Ref) :
    Except WcError (State × List Notif) :=
  match s.hero.upgrade_skill s.world r with
  | .error e => .error e
  | .ok p => .ok ({ s with world := p.1 }, p.2)

def State.downgrade_skill (s : State) (r : Ref) :
    Except WcError (State × List Notif) :=
  match s.hero.downgrade_skill s.world r with
  | .error e => .error e
  | .ok p => .ok ({ s with world := p.1 }, p.2)

def State.skill_points (s : State) : Int :=
  s.hero.skill_points s.world

/-- A freshly constructed hero at level 0 / xp 0: the variant's declared
`max_level` admits level 0, every owned skill starts at level 0, and
distinct dict entries hold distinct instances. -/
def Fresh (s : State) : Prop :=
  s.hero.level = 0 ∧ s.hero.xp = 0 ∧
  levelLeMax s.hero.max_level 0 ∧
  (s.hero.skills.map Prod.snd).Nodup ∧
  ∀ p ∈ s.hero.skills, (getSkill s.world p.2).level = 0

/-- The inductive invariant of the hero state machine: level bounds, the
skills dict holds pairwise distinct instances, and — when `take_xp` is
excluded (`b = false`) — non-negative skill points. -/
def InvState (b : Bool) (s : State) : Prop :=
  0 ≤ s.hero.level ∧ levelLeMax s.hero.max_level s.hero.level ∧
  (s.hero.skills.map Prod.snd).Nodup ∧
  (b = false → 0 ≤ s.skill_points)

/-- States reachable from `s0` by the hero operations.  A raised
`ValueError` does not transition (the source raises before mutating).
`execute_skills` leaves hero and skill state unchanged (callbacks act on
external game state only).  When the flag is `false`, `take_xp`
transitions are excluded. -/
inductive ReachableW : Bool → State → State → Prop where
  | init (b : Bool) (s : State) : ReachableW b s s
  | give_xp {b : Bool} {s0 s : State} (amount : Int) {s' : State}
      {ns : List Notif} (hr : ReachableW b s0 s)
      (hop : s.give_xp amount = .ok (s', ns)) : ReachableW b s0 s'
  | take_xp {s0 s : State} (amount : Int) {s' : State}
      {ns : List Notif} (hr : ReachableW true s0 s)
      (hop : s.take_xp amount = .ok (s', ns)) : ReachableW true s0 s'
  | upgrade_skill {b : Bool} {s0 s : State} (r : Ref) {s' : State}
      {ns : List Notif} (hr : ReachableW b s0 s)
      (hop : s.upgrade_skill r = .ok (s', ns)) : ReachableW b s0 s'
  | downgrade_skill {b : Bool} {s0 s : State} (r : Ref) {s' : State}
      {ns : List Notif} (hr : ReachableW b s0 s)
      (hop : s.downgrade_skill r = .ok (s', ns)) : ReachableW b s0 s'
  | execute_skills {b : Bool} {s0 s : State} (event_name : String)
      (hr : ReachableW b s0 s) : ReachableW b s0 s

/-! ### Spec-side descriptions of the XP loops (for the refinement
theorems; these follow the spec's words, to be compared with the loops
translated from the source) -/

/-- Modelled from the spec sentence for `give_xp`: "While not at max level
and `xp ≥ xp_quota(level)`: subtract `xp_quota(level)` from `xp` and
increment `level` by 1."  `xp_quota m level = some q` says the hero is not
at max level and its quota is `q`.  `LevelUpStar m a b` relates a
`(level, xp)` pair to any pair obtainable by such steps. -/
inductive LevelUpStar (m : Option Int) : Int × Int → Int × Int → Prop where
  | refl (p : Int × Int) : LevelUpStar m p p
  | step (level xp : Int) {p : Int × Int} (q : Int)
      (hq : xp_quota m level = some q) (hge : q ≤ xp)
      (h : LevelUpStar m (level + 1, xp - q) p) :
      LevelUpStar m (level, xp) p

/-- Modelled from the spec sentence for `take_xp`: "While `level > 0` and
`xp < 0`: decrement `level` by 1 and add `xp_quota(level)` (the quota of
the level being entered) to `xp`." -/
inductive LevelDownStar (m : Option Int) : Int × Int → Int × Int → Prop where
  | refl (p : Int × Int) : LevelDownStar m p p
  | step (level xp : Int) {p : Int × Int} (q : Int)
      (hpos : 0 < level) (hneg : xp < 0)
      (hq : xp_quota m (level - 1) = some q)
      (h : LevelDownStar m (level - 1, xp + q) p) :
      LevelDownStar m (level, xp) p

/-- The `(level, xp)` pair produced by a successful `give_xp` call. -/
def Hero.give_xp_result (h : Hero) (amount : Int) : Int × Int :=
  give_xp_loop h.max_level h.level (h.xp + amount)

/-- A hero with its `(level, xp)` pair replaced (skills and bounds
unchanged). -/
def Hero.with_progress (h : Hero) (p : Int × Int) : Hero :=
  { h with level := p.1, xp := p.2 }

/-- The `(level, xp)` pair produced by a successful `take_xp` call
(defaulting to the pre-loop pair on the error branches, which the
refinement theorem shows are not taken for bounds-respecting heroes). -/
def Hero.take_xp_result (h : Hero) (amount : Int) : Int × Int :=
  match take_xp_loop h.max_level h.level (h.xp - amount) with
  | .ok p => p
  | .error _ => (h.level, h.xp - amount)

/-! ### Concrete example states -/

/-- A fresh hero (unbounded `max_level`) owning one skill variant `"s"`
whose instance lives at heap ref 0. -/
def exState0 : State :=
  ⟨⟨[⟨"s", none, 0, []⟩]⟩, ⟨none, 0, 0, [("s", 0)]⟩⟩

/-- `exState0` after `give_xp 80`: level 1, xp 0. -/
def exState1 : State :=
  ⟨⟨[⟨"s", none, 0, []⟩]⟩, ⟨none, 1, 0, [("s", 0)]⟩⟩

/-- `exState1` after `upgrade_skill` on the owned skill: skill level 1. -/
def exState2 : State :=
  ⟨⟨[⟨"s", none, 1, []⟩]⟩, ⟨none, 1, 0, [("s", 0)]⟩⟩

/-- `exState2` after `take_xp 1`: the hero de-levels to 0 (xp 79) while the
skill keeps level 1, so `skill_points = 0 - 1 = -1`. -/
def exState3 : State :=
  ⟨⟨[⟨"s", none, 1, []⟩]⟩, ⟨none, 0, 79, [("s", 0)]⟩⟩

/-- A heap with two instances of the same skill variant `"v"`: ref 0 is
the hero's own instance, ref 1 belongs to another hero. -/
def exWorldTwo : World :=
  ⟨[⟨"v", none, 0, []⟩, ⟨"v", none, 0, []⟩]⟩

/-- A level-1 hero owning only the instance at ref 0. -/
def exHeroOwn : Hero :=
  ⟨none, 1, 0, [("v", 0)]⟩

/-- `exWorldTwo` after the hero upgrades the foreign instance at ref 1:
the foreign instance was mutated, the hero's own instance was not. -/
def exWorldTwo' : World :=
  ⟨[⟨"v", none, 0, []⟩, ⟨"v", none, 1, []⟩]⟩

/-- A fresh hero with finite `max_level` 5 and no skills (for exercising
the XP machine). -/
def exHeroMax5 : Hero :=
  ⟨some 5, 0, 0, []⟩

/-- A level-1 hero with no skills. -/
def exHeroLvl1 : Hero :=
  ⟨none, 1, 0, []⟩

/-- A hero already at its finite max level 5. -/
def exHeroAtMax : Hero :=
  ⟨some 5, 5, 10, []⟩

/-! ### Lemmas about the level-up loop -/

theorem give_xp_loop_le (m : Option Int) (level xp : Int) :
    level ≤ (give_xp_loop m level xp).1 := by
  induction level, xp using give_xp_loop.induct m with
  | case1 level xp h ih =>
    rw [give_xp_loop, dif_pos h]
    omega
  | case2 level xp h =>
    rw [give_xp_loop, dif_neg h]

theorem give_xp_loop_leMax (m : Option Int) (level xp : Int) :
    levelLeMax m level → levelLeMax m (give_xp_loop m level xp).1 := by
  induction level, xp using give_xp_loop.induct m with
  | case1 level xp h ih =>
    intro hle
    rw [give_xp_loop, dif_pos h]
    apply ih
    cases m with
    | none => trivial
    | some v =>
      have h1 := h.1
      simp only [on_max_level, decide_eq_false_iff_not] at h1
      simp only [levelLeMax] at hle ⊢
      omega
  | case2 level xp h =>
    intro hle
    rwa [give_xp_loop, dif_neg h]

theorem give_xp_loop_star (m : Option Int) (level xp : Int) :
    LevelUpStar m (level, xp) (give_xp_loop m level xp) := by
  induction level, xp using give_xp_loop.induct m with
  | case1 level xp h ih =>
    rw [give_xp_loop, dif_pos h]
    exact .step level xp (80 + 15 * level) (by simp [xp_quota, h.1]) h.2 ih
  | case2 level xp h =>
    rw [give_xp_loop, dif_neg h]
    exact .refl _

theorem give_xp_loop_terminal (m : Option Int) (level xp : Int) :
    on_max_level m (give_xp_loop m level xp).1 = true ∨
      (give_xp_loop m level xp).2 < 80 + 15 * (give_xp_loop m level xp).1 := by
  induction level, xp using give_xp_loop.induct m with
  | case1 level xp h ih =>
    rw [give_xp_loop, dif_pos h]
    exact ih
  | case2 level xp h =>
    rw [give_xp_loop, dif_neg h]
    rw [not_and_or] at h
    rcases h with h | h
    · left
      simpa using h
    · right
      omega

theorem give_xp_loop_of_max (m : Option Int) (level xp : Int)
    (hmax : on_max_level m level = true) :
    give_xp_loop m level xp = (level, xp) := by
  rw [give_xp_loop, dif_neg]
  simp [hmax]

/-! ### Lemmas about the level-down loop -/

theorem set_level_checked_ok {m : Option Int} {v w : Int}
    (h : set_level_checked m v = .ok w) :
    w = v ∧ 0 ≤ v ∧ maxLevelLt m v = false := by
  unfold set_level_checked at h
  split at h
  · exact absurd h (by simp)
  · split at h
    · exact absurd h (by simp)
    · refine ⟨by injection h with h; omega, by omega, by simp_all⟩

theorem set_level_checked_eq_ok {m : Option Int} {v : Int}
    (h0 : 0 ≤ v) (hm : maxLevelLt m v = false) :
    set_level_checked m v = .ok v := by
  unfold set_level_checked
  rw [if_neg (by omega), if_neg (by simp [hm])]

theorem maxLevelLt_pred {m : Option Int} {level : Int}
    (hle : levelLeMax m level) : maxLevelLt m (level - 1) = false := by
  cases m with
  | none => rfl
  | some v =>
    simp only [levelLeMax] at hle
    simp only [maxLevelLt, decide_eq_false_iff_not]
    omega

theorem xp_quota_pred {m : Option Int} {level : Int}
    (hle : levelLeMax m level) :
    xp_quota m (level - 1) = some (80 + 15 * (level - 1)) := by
  cases m with
  | none => simp [xp_quota, on_max_level]
  | some v =>
    simp only [levelLeMax] at hle
    simp only [xp_quota, on_max_level, if_neg]
    rw [if_neg]
    simp only [decide_eq_true_eq]
    omega

theorem levelLeMax_pred {m : Option Int} {level : Int}
    (hle : levelLeMax m level) : levelLeMax m (level - 1) := by
  cases m with
  | none => trivial
  | some v =>
    simp only [levelLeMax] at hle ⊢
    omega

theorem take_xp_loop_ok (m : Option Int) (level xp : Int)
    (hle : levelLeMax m level) :
    ∃ p, take_xp_loop m level xp = .ok p := by
  induction level, xp using take_xp_loop.induct m with
  | case1 level xp h e hset =>
    rw [set_level_checked_eq_ok (by omega) (maxLevelLt_pred hle)] at hset
    exact absurd hset (by simp)
  | case2 level xp h v hset hq =>
    rw [xp_quota_pred hle] at hq
    exact absurd hq (by simp)
  | case3 level xp h v hset q hq ih =>
    obtain ⟨p, hp⟩ := ih (levelLeMax_pred hle)
    refine ⟨p, ?_⟩
    rw [take_xp_loop, dif_pos h, hset, hq]
    exact hp
  | case4 level xp h =>
    exact ⟨(level, xp), by rw [take_xp_loop, dif_neg h]⟩

theorem take_xp_loop_spec (m : Option Int) (level xp L X : Int)
    (hok : take_xp_loop m level xp = .ok (L, X)) :
    LevelDownStar m (level, xp) (L, X) ∧
      (0 ≤ level → (L = 0 ∨ 0 ≤ X)) ∧ L ≤ level ∧
      (0 ≤ level → 0 ≤ L) ∧ (levelLeMax m level → levelLeMax m L) := by
  induction level, xp using take_xp_loop.induct m with
  | case1 level xp h e hset =>
    rw [take_xp_loop, dif_pos h, hset] at hok
    exact absurd hok (by simp)
  | case2 level xp h v hset hq =>
    rw [take_xp_loop, dif_pos h, hset, hq] at hok
    exact absurd hok (by simp)
  | case3 level xp h v hset q hq ih =>
    rw [take_xp_loop, dif_pos h, hset, hq] at hok
    obtain ⟨hstar, hterm, hlev, hpos, hmax⟩ := ih hok
    refine ⟨.step level xp q h.1 h.2 hq hstar, ?_, by omega, ?_, ?_⟩
    · intro _
      exact hterm (by omega)
    · intro _
      exact hpos (by omega)
    · intro hle
      exact hmax (levelLeMax_pred hle)
  | case4 level xp h =>
    rw [take_xp_loop, dif_neg h] at hok
    injection hok with hok
    injection hok with h1 h2
    subst h1
    subst h2
    exact ⟨.refl _, by omega, by omega, by omega, fun hle => hle⟩

/-! ### C2 / C3: the XP operations refine the spec's loop descriptions -/

/-- C2: for `amount ≥ 0`, `give_xp` adds the amount to `xp` and then
performs exactly the spec's level-up steps (`LevelUpStar`) until the hero
is at max level or `xp` is below the quota; the resulting level never
decreases; one `HeroLevelUp` notification with the total number of levels
gained fires iff the level increased; and from max level the loop does
nothing, so `xp` grows but the level stays and no notification fires. -/
theorem give_xp_correct (h : Hero) (amount : Int) (hamt : 0 ≤ amount) :
    h.give_xp amount = .ok (h.with_progress (h.give_xp_result amount),
      if h.level < (h.give_xp_result amount).1 then
        [Notif.heroLevelUp ((h.give_xp_result amount).1 - h.level)] else []) ∧
    LevelUpStar h.max_level (h.level, h.xp + amount) (h.give_xp_result amount) ∧
    (on_max_level h.max_level (h.give_xp_result amount).1 = true ∨
      (h.give_xp_result amount).2 < 80 + 15 * (h.give_xp_result amount).1) ∧
    h.level ≤ (h.give_xp_result amount).1 ∧
    (on_max_level h.max_level h.level = true →
      h.give_xp_result amount = (h.level, h.xp + amount)) := by
  refine ⟨?_, give_xp_loop_star _ _ _, give_xp_loop_terminal _ _ _,
    give_xp_loop_le _ _ _, fun hmax => give_xp_loop_of_max _ _ _ hmax⟩
  simp only [Hero.give_xp, Hero.give_xp_result, Hero.with_progress]
  rw [if_neg (by omega)]
  simp only [Int.sub_pos]

/-- Witness for C2: the multi-level grant of the spec, on a fresh hero
with `max_level = 5`: `give_xp 175` consumes quota 80 then quota 95 and
ends at level 2, xp 0, with a single `HeroLevelUp 2` notification. -/
theorem give_xp_correct_witness :
    exHeroMax5.give_xp 175 =
      .ok (exHeroMax5.with_progress (2, 0), [Notif.heroLevelUp 2]) := by
  have hres : exHeroMax5.give_xp_result 175 = (2, 0) := by
    simp [Hero.give_xp_result, give_xp_loop, on_max_level, exHeroMax5]
  have hc := (give_xp_correct exHeroMax5 175 (by decide)).1
  rw [hres] at hc
  simpa [exHeroMax5] using hc

/-- C3: for a bounds-respecting hero and `amount ≥ 0`, `take_xp` subtracts
the amount from `xp` and then performs exactly the spec's level-down steps
(`LevelDownStar`), ending only when the level is 0 or `xp` is no longer
negative (so `xp` may end negative at level 0); the level never increases;
one `HeroLevelDown` notification with the total number of levels lost
fires iff the level decreased; and a negative amount makes `take_xp`
(symmetrically `give_xp`) fail with a `ValueError` without any state
transition. -/
theorem take_xp_correct (h : Hero) (amount : Int)
    (hle : levelLeMax h.max_level h.level) (hamt : 0 ≤ amount) :
    h.take_xp amount = .ok (h.with_progress (h.take_xp_result amount),
      if (h.take_xp_result amount).1 < h.level then
        [Notif.heroLevelDown (h.level - (h.take_xp_result amount).1)] else []) ∧
    LevelDownStar h.max_level (h.level, h.xp - amount) (h.take_xp_result amount) ∧
    (0 ≤ h.level →
      ((h.take_xp_result amount).1 = 0 ∨ 0 ≤ (h.take_xp_result amount).2)) ∧
    (h.take_xp_result amount).1 ≤ h.level ∧
    (∀ a : Int, a < 0 → h.take_xp a = .error .negativeAmountTake) ∧
    (∀ a : Int, a < 0 → h.give_xp a = .error .negativeAmountGive) := by
  obtain ⟨⟨L, X⟩, hp⟩ := take_xp_loop_ok h.max_level h.level (h.xp - amount) hle
  have hres : h.take_xp_result amount = (L, X) := by
    unfold Hero.take_xp_result
    rw [hp]
  obtain ⟨hstar, hterm, hlev, hpos, hmax⟩ := take_xp_loop_spec _ _ _ _ _ hp
  rw [hres]
  refine ⟨?_, hstar, hterm, hlev, ?_, ?_⟩
  · unfold Hero.take_xp Hero.with_progress
    rw [if_neg (by omega), hp]
    simp only [Int.sub_pos]
  · intro a ha
    unfold Hero.take_xp
    rw [if_pos ha]
  · intro a ha
    unfold Hero.give_xp
    rw [if_pos ha]

/-- Witness for C3: a level-1 hero with `take_xp 100` de-levels once
(adding quota 80) and ends at level 0 with xp `-20`, i.e. negative xp at
level 0 is not clamped. -/
theorem take_xp_correct_witness :
    exHeroLvl1.take_xp 100 =
      .ok (exHeroLvl1.with_progress (0, -20), [Notif.heroLevelDown 1]) := by
  have hres : exHeroLvl1.take_xp_result 100 = (0, -20) := by
    simp [Hero.take_xp_result, take_xp_loop, set_level_checked, maxLevelLt,
      xp_quota, on_max_level, exHeroLvl1]
  have hc := (take_xp_correct exHeroLvl1 100 (by trivial) (by decide)).1
  rw [hres] at hc
  simpa [exHeroLvl1] using hc

/-! ### C4: upgrade gating -/

theorem maxLevelLt_succ {m : Option Int} {level : Int}
    (hle : levelLeMax m level) (hmax : on_max_level m level = false) :
    maxLevelLt m (level + 1) = false := by
  cases m with
  | none => rfl
  | some v =>
    simp only [levelLeMax] at hle
    simp only [on_max_level, decide_eq_false_iff_not] at hmax
    simp only [maxLevelLt, decide_eq_false_iff_not]
    omega

/-- C4: `can_upgrade_skill` is true iff the skill's `class_id` is a key of
the hero's `skills`, `skill_points > 0`, and the skill is not at its own
max level; `upgrade_skill` fails with a `ValueError` (leaving all state
unchanged) exactly when `can_upgrade_skill` is false, and otherwise
increments the skill instance's level by 1 and fires one `SkillUpgrade`
notification; in particular `skill_points = 0` blocks every upgrade. -/
theorem upgrade_skill_correct (w : World) (h : Hero) (r : Ref) :
    (h.can_upgrade_skill w r = true ↔
      (skillsContains h.skills (getSkill w r).class_id = true ∧
        0 < h.skill_points w ∧
        on_max_level (getSkill w r).max_level (getSkill w r).level = false)) ∧
    (h.can_upgrade_skill w r = false →
      h.upgrade_skill w r = .error .cannotUpgrade) ∧
    (h.can_upgrade_skill w r = true → 0 ≤ (getSkill w r).level →
      levelLeMax (getSkill w r).max_level (getSkill w r).level →
      h.upgrade_skill w r =
        .ok (setSkill w r { getSkill w r with level := (getSkill w r).level + 1 },
          [Notif.skillUpgrade])) ∧
    (h.skill_points w = 0 → h.can_upgrade_skill w r = false) := by
  have hiff : h.can_upgrade_skill w r = true ↔
      (skillsContains h.skills (getSkill w r).class_id = true ∧
        0 < h.skill_points w ∧
        on_max_level (getSkill w r).max_level (getSkill w r).level = false) := by
    simp [Hero.can_upgrade_skill, Bool.and_eq_true, decide_eq_true_eq,
      Bool.not_eq_true', and_assoc]
  refine ⟨hiff, ?_, ?_, ?_⟩
  · intro hc
    unfold Hero.upgrade_skill
    rw [if_neg (by simp [hc])]
  · intro hc h0 hle
    have hmax := (hiff.mp hc).2.2
    unfold Hero.upgrade_skill
    rw [if_pos (by simp [hc]),
      set_level_checked_eq_ok (by omega) (maxLevelLt_succ hle hmax)]
  · intro hsp
    simp [Hero.can_upgrade_skill, hsp]

/-- Witness for C4: the hero with one skill point upgrades its own skill
(at ref 0), which moves that instance from level 0 to level 1. -/
theorem upgrade_skill_correct_witness :
    exHeroOwn.upgrade_skill exWorldTwo 0 =
      .ok (setSkill exWorldTwo 0
          { getSkill exWorldTwo 0 with level := (getSkill exWorldTwo 0).level + 1 },
        [Notif.skillUpgrade]) :=
  (upgrade_skill_correct exWorldTwo exHeroOwn 0).2.2.1 (by decide) (by decide)
    (by trivial)

/-! ### C5: skill execution -/

theorem execute_skills_filterMap_eq (w : World) (en : String) :
    ∀ l : List (String × Ref),
      (l.filterMap (fun p =>
        if 0 < (getSkill w p.2).level then
          some (p.2, (getSkill w p.2).execute en)
        else none)) =
      ((l.map Prod.snd).filter (fun r => decide (0 < (getSkill w r).level))).map
        (fun r => (r, (getSkill w r).execute en))
  | [] => rfl
  | p :: t => by
    by_cases hl : 0 < (getSkill w p.2).level
    · simp [List.filterMap_cons, List.filter_cons, hl,
        execute_skills_filterMap_eq w en t]
    · simp [List.filterMap_cons, List.filter_cons, hl,
        execute_skills_filterMap_eq w en t]

/-- C5: `execute_skills` calls `Skill.execute` exactly on the owned
skills whose level is positive, in the hero's skill iteration order; an
instance at level 0 never appears in the execution trace; and
`Skill.execute` is a no-op when the event name is not a key of the
variant's callback registry. -/
theorem execute_skills_correct (w : World) (h : Hero) (en : String) :
    h.execute_skills w en =
      ((h.skills.map Prod.snd).filter (fun r => decide (0 < (getSkill w r).level))).map
        (fun r => (r, (getSkill w r).execute en)) ∧
    (∀ (r : Ref) (res : Option Nat), (getSkill w r).level = 0 →
      (r, res) ∉ h.execute_skills w en) ∧
    (∀ s : SkillInst, (∀ c ∈ s.event_callbacks, c.1 ≠ en) →
      s.execute en = none) := by
  have heq := execute_skills_filterMap_eq w en h.skills
  refine ⟨heq, ?_, ?_⟩
  · intro r res hlvl hmem
    rw [Hero.execute_skills, heq] at hmem
    simp only [List.mem_map, List.mem_filter, decide_eq_true_eq] at hmem
    obtain ⟨a, ⟨-, ha⟩, haeq⟩ := hmem
    have har : a = r := congrArg Prod.fst haeq
    rw [har] at ha
    omega
  · intro s hs
    simp only [SkillInst.execute, dictLookup, Option.map_eq_none',
      List.find?_eq_none]
    intro c hc
    simpa using hs c hc

/-- Witness for C5: the level-0 skill of the fresh example state is never
executed, whatever callback result one asks about. -/
theorem execute_skills_correct_witness :
    ((0 : Ref), (none : Option Nat)) ∉
      exState0.hero.execute_skills exState0.world "player_spawn" :=
  (execute_skills_correct exState0.world exState0.hero "player_spawn").2.1 0 none
    (by decide)

/-! ### C6: the callback registry lets the last declared callback win -/

theorem dictLookup_map_update_self (d : List (String × Nat)) (k : String) (v : Nat) :
    dictLookup (d.map (fun p => if p.1 == k then (k, v) else p)) k =
      if d.any (fun p => p.1 == k) then some v else none := by
  induction d with
  | nil => rfl
  | cons p t ih =>
    simp only [List.map_cons, dictLookup, List.any_cons]
    by_cases hp : p.1 = k
    · rw [if_pos (by simp [hp]), List.find?_cons_of_pos _ (by simp)]
      simp [hp]
    · have hb : (p.1 == k) = false := by simp [hp]
      rw [if_neg (by simp [hp]), List.find?_cons_of_neg _ (by simp [hp])]
      simp only [hb, Bool.false_or]
      simpa [dictLookup] using ih

theorem dictLookup_map_update_ne (d : List (String × Nat)) (k k' : String)
    (v : Nat) (hne : k' ≠ k) :
    dictLookup (d.map (fun p => if p.1 == k then (k, v) else p)) k' =
      dictLookup d k' := by
  induction d with
  | nil => rfl
  | cons p t ih =>
    simp only [List.map_cons, dictLookup]
    by_cases hp : p.1 = k
    · rw [if_pos (by simp [hp]),
        List.find?_cons_of_neg _ (by simp [Ne.symm hne]),
        List.find?_cons_of_neg _ (by simp [hp, Ne.symm hne])]
      exact ih
    · rw [if_neg (by simp [hp])]
      by_cases hp' : p.1 = k'
      · rw [List.find?_cons_of_pos _ (by simp [hp']),
          List.find?_cons_of_pos _ (by simp [hp'])]
      · rw [List.find?_cons_of_neg _ (by simp [hp']),
          List.find?_cons_of_neg _ (by simp [hp'])]
        exact ih

theorem dictLookup_dictInsert_self (d : List (String × Nat)) (k : String) (v : Nat) :
    dictLookup (dictInsert d k v) k = some v := by
  unfold dictInsert
  split
  · next hany =>
    rw [dictLookup_map_update_self, if_pos hany]
  · next hany =>
    have hnone : d.find? (fun p => p.1 == k) = none := by
      rw [List.find?_eq_none]
      intro p hp hbeq
      exact hany (List.any_eq_true.mpr ⟨p, hp, hbeq⟩)
    simp [dictLookup, List.find?_append, hnone]

theorem dictLookup_dictInsert_ne (d : List (String × Nat)) (k k' : String)
    (v : Nat) (hne : k' ≠ k) :
    dictLookup (dictInsert d k v) k' = dictLookup d k' := by
  unfold dictInsert
  split
  · exact dictLookup_map_update_ne d k k' v hne
  · have hsingle : [(k, v)].find? (fun p => p.1 == k') = none := by
      simp [Ne.symm hne]
    simp [dictLookup, List.find?_append, hsingle, Option.or_none]

theorem dictLookup_foldl_insert_self (c : Nat) (en : String) :
    ∀ (names : List String) (d : List (String × Nat)), en ∈ names →
      dictLookup (names.foldl (fun d n => dictInsert d n c) d) en = some c := by
  intro names
  induction names with
  | nil => intro d h; cases h
  | cons n rest ih =>
    intro d hmem
    simp only [List.foldl_cons]
    by_cases hr : en ∈ rest
    · exact ih _ hr
    · have hen : en = n := by
        rcases List.mem_cons.mp hmem with h | h
        · exact h
        · exact absurd h hr
      subst hen
      have hnot : ∀ (d' : List (String × Nat)),
          dictLookup (rest.foldl (fun d n => dictInsert d n c) d') en =
            dictLookup d' en := by
        clear ih hmem
        induction rest with
        | nil => intro d'; rfl
        | cons x xs ihx =>
          intro d'
          simp only [List.foldl_cons]
          rw [ihx (fun h => hr (List.mem_cons_of_mem x h))]
          exact dictLookup_dictInsert_ne d' x en c
            (fun h => hr (h ▸ List.mem_cons_self x xs))
      rw [hnot]
      exact dictLookup_dictInsert_self d en c

/-- C6 amended: registry construction does not reject duplicate event
names — a later callback claiming an already-registered event name
silently overwrites the earlier one ("last declared wins"): whatever was
declared before, the callback of the last declared attribute is the one
registered for each of its event names. -/
theorem build_event_callbacks_last_wins (attrs : List (Nat × List String))
    (c : Nat) (names : List String) (en : String) (hmem : en ∈ names) :
    dictLookup (build_event_callbacks (attrs ++ [(c, names)])) en = some c := by
  unfold build_event_callbacks
  rw [List.foldl_append]
  simp only [List.foldl_cons, List.foldl_nil]
  exact dictLookup_foldl_insert_self c en names _ hmem

/-- Witness for the amended C6: with an earlier callback 0 on
`"player_spawn"`, a later callback 1 on the same name ends up registered. -/
theorem build_event_callbacks_last_wins_witness :
    ("player_spawn" ∈ ["player_spawn"]) ∧
      dictLookup (build_event_callbacks
        ([(0, ["player_spawn"])] ++ [(1, ["player_spawn"])])) "player_spawn" =
        some 1 :=
  ⟨by simp, build_event_callbacks_last_wins [(0, ["player_spawn"])] 1
    ["player_spawn"] "player_spawn" (by simp)⟩

/-- Counterexample to C6 as stated: two distinct callbacks (0 and 1) both
claim `"player_spawn"` within one variant, yet registry construction
succeeds and resolves the duplicate by letting the last declared callback
win, rather than flagging a conflict. -/
theorem build_event_callbacks_no_conflict_detection :
    build_event_callbacks [(0, ["player_spawn"]), (1, ["player_spawn"])] =
      [("player_spawn", 1)] := by decide

/-! ### C7: two-subject event dispatch -/

/-- C7: when the attacker is absent (userid 0) or equals the victim,
dispatch is skipped entirely; otherwise the raw name is translated by the
fixed table and the attacker's hero receives `execute_skills` with the
first semantic name while the victim's hero receives the second, each
carrying the acting player of that perspective as the `player` argument. -/
theorem interaction_dispatch_correct (e : GameEvent) :
    ((e.attacker = 0 ∨ e.attacker = e.userid) →
      execute_interaction_skills e = .ok []) ∧
    (e.attacker ≠ 0 → e.attacker ≠ e.userid → e.name = "player_death" →
      execute_interaction_skills e =
        .ok [⟨e.attacker, "player_kill", e.attacker⟩,
          ⟨e.userid, "player_death", e.userid⟩]) ∧
    (e.attacker ≠ 0 → e.attacker ≠ e.userid → e.name = "player_hurt" →
      execute_interaction_skills e =
        .ok [⟨e.attacker, "player_attack", e.attacker⟩,
          ⟨e.userid, "player_victim", e.userid⟩]) := by
  refine ⟨?_, ?_, ?_⟩
  · intro hskip
    unfold execute_interaction_skills
    rw [if_pos]
    rcases hskip with h | h <;> simp [h]
  · intro h0 hne hname
    unfold execute_interaction_skills
    rw [if_neg (by simp [h0, hne]), hname]
    rfl
  · intro h0 hne hname
    unfold execute_interaction_skills
    rw [if_neg (by simp [h0, hne]), hname]
    rfl

/-- Witness for C7: a kill of player 3 by player 2 dispatches
`player_kill` to the attacker's hero and `player_death` to the victim's;
a self-kill (attacker 3, victim 3) dispatches nothing. -/
theorem interaction_dispatch_correct_witness :
    execute_interaction_skills ⟨"player_death", 3, 2⟩ =
      .ok [⟨2, "player_kill", 2⟩, ⟨3, "player_death", 3⟩] ∧
    execute_interaction_skills ⟨"player_death", 3, 3⟩ = .ok [] :=
  ⟨(interaction_dispatch_correct ⟨"player_death", 3, 2⟩).2.1 (by decide)
      (by decide) rfl,
    (interaction_dispatch_correct ⟨"player_death", 3, 3⟩).1 (Or.inr rfl)⟩

/-! ### C8: entity construction and the level setter -/

/-- Counterexample to C8 as stated: constructing an entity with
`level = 7` against `max_level = 5` does not fail — the out-of-range
level is committed as-is (only the *setter* would reject the same
value). -/
theorem entity_init_unchecked :
    Entity.init (some 5) 7 = { max_level := some 5, level := 7 } ∧
    maxLevelLt (some 5) 7 = true ∧
    (Entity.init (some 5) 7).set_level 7 = .error .levelAboveMax ∧
    Entity.init (some 5) (-3) = { max_level := some 5, level := -3 } := by
  refine ⟨rfl, by decide, by rfl, rfl⟩

/-- C8 amended: construction stores the given level without any
validation (it cannot fail, even for `L < 0` or `L > max_level`); setting
`level = V` fails with a range error when `V < 0` or `V > max_level`,
leaving the stored level unchanged, and otherwise commits `V`;
`on_max_level` returns exactly the test `level == max_level`. -/
theorem entity_level_correct (m : Option Int) (L : Int) (e : Entity) (V : Int) :
    Entity.init m L = { max_level := m, level := L } ∧
    (V < 0 → e.set_level V = .error .levelNegative) ∧
    (0 ≤ V → maxLevelLt e.max_level V = true →
      e.set_level V = .error .levelAboveMax) ∧
    (0 ≤ V → maxLevelLt e.max_level V = false →
      e.set_level V = .ok { e with level := V }) ∧
    (e.onMaxLevel = true ↔ e.max_level = some e.level) := by
  refine ⟨rfl, ?_, ?_, ?_, ?_⟩
  · intro hv
    unfold Entity.set_level set_level_checked
    rw [if_pos hv]
  · intro hv hm
    unfold Entity.set_level set_level_checked
    rw [if_neg (by omega), if_pos hm]
  · intro hv hm
    unfold Entity.set_level
    rw [set_level_checked_eq_ok hv hm]
  · unfold Entity.onMaxLevel on_max_level
    cases e.max_level with
    | none => simp
    | some v => simp [eq_comm]

/-- Witness for C8 amended: setting level 4 on an entity at level 3 with
max level 5 commits the value. -/
theorem entity_level_correct_witness :
    Entity.set_level ⟨some 5, 3⟩ 4 = .ok ⟨some 5, 4⟩ :=
  (entity_level_correct (some 5) 3 ⟨some 5, 3⟩ 4).2.2.2.1 (by decide) (by decide)

/-! ### C9: hero construction calls `skill_class()` without an owner -/

/-- C9: `_HeroMeta.__call__` instantiates each declared skill class with
`skill_class()` — no `owner` argument — while `Skill.__init__` requires
`owner` (it reads `owner.id`), so constructing any hero with at least one
declared skill variant fails with a `TypeError` instead of populating the
`skills` dict with hero-owned instances. -/
theorem hero_meta_call_missing_owner (skill_classes : List SkillClassDef)
    (hne : skill_classes ≠ []) :
    hero_meta_call_skills skill_classes = .error .missingOwnerArgument := by
  cases skill_classes with
  | nil => exact absurd rfl hne
  | cons c t => rfl

/-- Witness for C9: a hero declaring a single skill variant
(`Bonus_Health`, max level 8) cannot be constructed. -/
theorem hero_meta_call_missing_owner_witness :
    hero_meta_call_skills [⟨"Bonus_Health", some 8, []⟩] =
      .error .missingOwnerArgument :=
  hero_meta_call_missing_owner [⟨"Bonus_Health", some 8, []⟩] (by simp)

/-! ### C10: ownership checks see only `class_id`, not instance identity -/

/-- C10: `can_upgrade_skill` and `can_downgrade_skill` depend on the
passed instance only through its field values (in particular its
`class_id`), never on which stored instance it is; consequently the hero
owning only the instance at ref 0 passes both ownership checks for the
foreign instance at ref 1 of the same variant, and `upgrade_skill`
(then `downgrade_skill`, on the world where the foreign instance is at
level 1) mutates that foreign instance while the hero's own stored skill
is unchanged throughout. -/
theorem ownership_by_class_id (w : World) (h : Hero) (r r' : Ref) :
    (getSkill w r = getSkill w r' →
      h.can_upgrade_skill w r = h.can_upgrade_skill w r' ∧
      h.can_downgrade_skill w r = h.can_downgrade_skill w r') ∧
    ((1 : Ref) ∉ exHeroOwn.skills.map Prod.snd ∧
      exHeroOwn.can_upgrade_skill exWorldTwo 1 = true ∧
      exHeroOwn.upgrade_skill exWorldTwo 1 = .ok (exWorldTwo', [Notif.skillUpgrade]) ∧
      getSkill exWorldTwo' 0 = getSkill exWorldTwo 0 ∧
      (getSkill exWorldTwo 1).level = 0 ∧
      (getSkill exWorldTwo' 1).level = 1) ∧
    (exHeroOwn.can_downgrade_skill exWorldTwo' 1 = true ∧
      exHeroOwn.downgrade_skill exWorldTwo' 1 =
        .ok (exWorldTwo, [Notif.skillDowngrade]) ∧
      getSkill exWorldTwo 0 = getSkill exWorldTwo' 0 ∧
      exHeroOwn.can_downgrade_skill exWorldTwo' 0 = false) := by
  refine ⟨?_, ?_, ?_⟩
  · intro heq
    constructor
    · simp [Hero.can_upgrade_skill, heq]
    · simp [Hero.can_downgrade_skill, heq]
  · refine ⟨by decide, by decide, by rfl, by decide, by decide, by decide⟩
  · refine ⟨by decide, by rfl, by decide, by decide⟩

/-- Witness for C10: instantiating the identity-blindness clause at the
two aliasing refs of the example world. -/
theorem ownership_by_class_id_witness :
    exHeroOwn.can_upgrade_skill exWorldTwo 0 =
        exHeroOwn.can_upgrade_skill exWorldTwo 1 ∧
      exHeroOwn.can_downgrade_skill exWorldTwo 0 =
        exHeroOwn.can_downgrade_skill exWorldTwo 1 :=
  (ownership_by_class_id exWorldTwo exHeroOwn 0 1).1 (by decide)

/-! ### C1: reachable-state invariants -/

theorem setSkill_oob (w : World) (r : Ref) (s : SkillInst)
    (h : w.skill_heap.length ≤ r) : setSkill w r s = w := by
  simp [setSkill, List.set_eq_of_length_le h]

theorem getSkill_setSkill_self (w : World) (r : Ref) (s : SkillInst)
    (h : r < w.skill_heap.length) : getSkill (setSkill w r s) r = s := by
  simp [getSkill, setSkill, List.getD_eq_getElem?_getD, List.getElem?_set_self h]

theorem getSkill_setSkill_ne (w : World) (r r' : Ref) (s : SkillInst)
    (h : r ≠ r') : getSkill (setSkill w r s) r' = getSkill w r' := by
  simp [getSkill, setSkill, List.getD_eq_getElem?_getD, List.getElem?_set_ne h]

theorem sum_levels_setSkill (w : World) (r : Ref) (s : SkillInst)
    (hr : r < w.skill_heap.length) :
    ∀ skills : List (String × Ref), (skills.map Prod.snd).Nodup →
      (skills.map (fun p => (getSkill (setSkill w r s) p.2).level)).sum =
        (skills.map (fun p => (getSkill w p.2).level)).sum +
          (if r ∈ skills.map Prod.snd then s.level - (getSkill w r).level else 0) := by
  intro skills
  induction skills with
  | nil => simp
  | cons p t ih =>
    intro hnd
    simp only [List.map_cons, List.nodup_cons] at hnd
    obtain ⟨hnotin, hndt⟩ := hnd
    simp only [List.map_cons, List.sum_cons, List.mem_cons]
    rw [ih hndt]
    by_cases hp : p.2 = r
    · subst hp
      rw [getSkill_setSkill_self w p.2 s hr]
      rw [if_neg hnotin, if_pos (Or.inl rfl)]
      omega
    · rw [getSkill_setSkill_ne w r p.2 s (fun he => hp he.symm)]
      by_cases hrt : r ∈ t.map Prod.snd
      · rw [if_pos hrt, if_pos (Or.inr hrt)]
        omega
      · rw [if_neg hrt, if_neg ?_]
        · omega
        · rintro (h | h)
          · exact hp h.symm
          · exact hrt h

theorem state_give_xp_ok {s : State} {amount : Int} {s' : State}
    {ns : List Notif} (hop : s.give_xp amount = .ok (s', ns)) :
    s.hero.give_xp amount = .ok (s'.hero, ns) ∧ s'.world = s.world := by
  unfold State.give_xp at hop
  cases hx : s.hero.give_xp amount with
  | error e =>
    rw [hx] at hop
    exact absurd hop (by simp)
  | ok p =>
    rw [hx] at hop
    simp only [Except.ok.injEq, Prod.mk.injEq] at hop
    obtain ⟨h1, h2⟩ := hop
    subst h2
    rw [← h1]
    exact ⟨rfl, rfl⟩

theorem state_take_xp_ok {s : State} {amount : Int} {s' : State}
    {ns : List Notif} (hop : s.take_xp amount = .ok (s', ns)) :
    s.hero.take_xp amount = .ok (s'.hero, ns) ∧ s'.world = s.world := by
  unfold State.take_xp at hop
  cases hx : s.hero.take_xp amount with
  | error e =>
    rw [hx] at hop
    exact absurd hop (by simp)
  | ok p =>
    rw [hx] at hop
    simp only [Except.ok.injEq, Prod.mk.injEq] at hop
    obtain ⟨h1, h2⟩ := hop
    subst h2
    rw [← h1]
    exact ⟨rfl, rfl⟩

theorem state_upgrade_skill_ok {s : State} {r : Ref} {s' : State}
    {ns : List Notif} (hop : s.upgrade_skill r = .ok (s', ns)) :
    s.hero.upgrade_skill s.world r = .ok (s'.world, ns) ∧ s'.hero = s.hero := by
  unfold State.upgrade_skill at hop
  cases hx : s.hero.upgrade_skill s.world r with
  | error e =>
    rw [hx] at hop
    exact absurd hop (by simp)
  | ok p =>
    rw [hx] at hop
    simp only [Except.ok.injEq, Prod.mk.injEq] at hop
    obtain ⟨h1, h2⟩ := hop
    subst h2
    rw [← h1]
    exact ⟨rfl, rfl⟩

theorem state_downgrade_skill_ok {s : State} {r : Ref} {s' : State}
    {ns : List Notif} (hop : s.downgrade_skill r = .ok (s', ns)) :
    s.hero.downgrade_skill s.world r = .ok (s'.world, ns) ∧ s'.hero = s.hero := by
  unfold State.downgrade_skill at hop
  cases hx : s.hero.downgrade_skill s.world r with
  | error e =>
    rw [hx] at hop
    exact absurd hop (by simp)
  | ok p =>
    rw [hx] at hop
    simp only [Except.ok.injEq, Prod.mk.injEq] at hop
    obtain ⟨h1, h2⟩ := hop
    subst h2
    rw [← h1]
    exact ⟨rfl, rfl⟩

theorem hero_give_xp_ok {h h' : Hero} {amount : Int} {ns : List Notif}
    (hop : h.give_xp amount = .ok (h', ns)) :
    h'.skills = h.skills ∧ h'.max_level = h.max_level ∧ h'.xp = h'.xp ∧
      h.level ≤ h'.level ∧
      (levelLeMax h.max_level h.level → levelLeMax h'.max_level h'.level) := by
  unfold Hero.give_xp at hop
  split at hop
  · exact absurd hop (by simp)
  · simp only [Except.ok.injEq, Prod.mk.injEq] at hop
    obtain ⟨h1, -⟩ := hop
    rw [← h1]
    exact ⟨rfl, rfl, rfl, give_xp_loop_le _ _ _,
      fun hle => give_xp_loop_leMax _ _ _ hle⟩

theorem hero_take_xp_ok {h h' : Hero} {amount : Int} {ns : List Notif}
    (hop : h.take_xp amount = .ok (h', ns)) :
    h'.skills = h.skills ∧ h'.max_level = h.max_level ∧
      (0 ≤ h.level → 0 ≤ h'.level) ∧
      (levelLeMax h.max_level h.level → levelLeMax h'.max_level h'.level) := by
  unfold Hero.take_xp at hop
  split at hop
  · exact absurd hop (by simp)
  · cases hlp : take_xp_loop h.max_level h.level (h.xp - amount) with
    | error e =>
      rw [hlp] at hop
      exact absurd hop (by simp)
    | ok p =>
      rw [hlp] at hop
      simp only [Except.ok.injEq, Prod.mk.injEq] at hop
      obtain ⟨h1, -⟩ := hop
      rw [← h1]
      obtain ⟨-, -, -, hpos, hmax⟩ :=
        take_xp_loop_spec h.max_level h.level (h.xp - amount) p.1 p.2
          (by rw [hlp])
      exact ⟨rfl, rfl, hpos, hmax⟩

theorem hero_upgrade_skill_ok {h : Hero} {w : World} {r : Ref} {w' : World}
    {ns : List Notif} (hop : h.upgrade_skill w r = .ok (w', ns)) :
    0 < h.skill_points w ∧
      w' = setSkill w r
        { getSkill w r with level := (getSkill w r).level + 1 } := by
  unfold Hero.upgrade_skill at hop
  split at hop
  case isTrue hcan =>
    cases hset : set_level_checked (getSkill w r).max_level
        ((getSkill w r).level + 1) with
    | error e =>
      rw [hset] at hop
      exact absurd hop (by simp)
    | ok v =>
      rw [hset] at hop
      obtain ⟨rfl, -, -⟩ := set_level_checked_ok hset
      simp only [Except.ok.injEq, Prod.mk.injEq] at hop
      refine ⟨?_, hop.1.symm⟩
      simp only [Hero.can_upgrade_skill, Bool.and_eq_true,
        decide_eq_true_eq] at hcan
      exact hcan.1.2
  case isFalse => exact absurd hop (by simp)

theorem hero_downgrade_skill_ok {h : Hero} {w : World} {r : Ref} {w' : World}
    {ns : List Notif} (hop : h.downgrade_skill w r = .ok (w', ns)) :
    0 < (getSkill w r).level ∧
      w' = setSkill w r
        { getSkill w r with level := (getSkill w r).level - 1 } := by
  unfold Hero.downgrade_skill at hop
  split at hop
  case isTrue hcan =>
    cases hset : set_level_checked (getSkill w r).max_level
        ((getSkill w r).level - 1) with
    | error e =>
      rw [hset] at hop
      exact absurd hop (by simp)
    | ok v =>
      rw [hset] at hop
      obtain ⟨rfl, -, -⟩ := set_level_checked_ok hset
      simp only [Except.ok.injEq, Prod.mk.injEq] at hop
      refine ⟨?_, hop.1.symm⟩
      simp only [Hero.can_downgrade_skill, Bool.and_eq_true,
        decide_eq_true_eq] at hcan
      exact hcan.2
  case isFalse => exact absurd hop (by simp)

theorem skill_points_setSkill_delta (h : Hero) (w : World) (r : Ref)
    (s : SkillInst) (hnd : (h.skills.map Prod.snd).Nodup) :
    h.skill_points w - (if r < w.skill_heap.length then
        (if r ∈ h.skills.map Prod.snd then s.level - (getSkill w r).level else 0)
      else 0) = h.skill_points (setSkill w r s) := by
  by_cases hr : r < w.skill_heap.length
  · rw [if_pos hr]
    unfold Hero.skill_points
    rw [sum_levels_setSkill w r s hr h.skills hnd]
    omega
  · have hge : w.skill_heap.length ≤ r := Nat.le_of_not_lt hr
    rw [if_neg hr, setSkill_oob w r s hge]
    omega

theorem reachable_inv {b : Bool} {s0 s : State} (h0 : InvState b s0)
    (hr : ReachableW b s0 s) : InvState b s := by
  induction hr with
  | init => exact h0
  | give_xp amount hr hop ih =>
    obtain ⟨h1, h2, h3, h4⟩ := ih h0
    obtain ⟨hh, hw⟩ := state_give_xp_ok hop
    obtain ⟨hsk, hml, -, hlev, hle⟩ := hero_give_xp_ok hh
    refine ⟨by omega, hle h2, by rw [hsk]; exact h3, fun hb => ?_⟩
    have hsp := h4 hb
    unfold State.skill_points Hero.skill_points at hsp ⊢
    rw [hw, hsk]
    omega
  | take_xp amount hr hop ih =>
    obtain ⟨h1, h2, h3, h4⟩ := ih h0
    obtain ⟨hh, hw⟩ := state_take_xp_ok hop
    obtain ⟨hsk, hml, hpos, hle⟩ := hero_take_xp_ok hh
    exact ⟨hpos h1, hle h2, by rw [hsk]; exact h3, by simp⟩
  | @upgrade_skill b1 t0 t r t' ns1 hr hop ih =>
    obtain ⟨h1, h2, h3, h4⟩ := ih h0
    obtain ⟨hh, hhero⟩ := state_upgrade_skill_ok hop
    obtain ⟨hsp, hw⟩ := hero_upgrade_skill_ok hh
    refine ⟨by rw [hhero]; exact h1, by rw [hhero]; exact h2,
      by rw [hhero]; exact h3, fun hb => ?_⟩
    have hdelta := skill_points_setSkill_delta t.hero t.world r
      { getSkill t.world r with level := (getSkill t.world r).level + 1 } h3
    have hslev : ({ getSkill t.world r with
        level := (getSkill t.world r).level + 1 } : SkillInst).level =
        (getSkill t.world r).level + 1 := rfl
    rw [hslev] at hdelta
    unfold State.skill_points
    rw [hhero, hw, ← hdelta]
    split
    · split
      · omega
      · omega
    · omega
  | @downgrade_skill b1 t0 t r t' ns1 hr hop ih =>
    obtain ⟨h1, h2, h3, h4⟩ := ih h0
    obtain ⟨hh, hhero⟩ := state_downgrade_skill_ok hop
    obtain ⟨hlev, hw⟩ := hero_downgrade_skill_ok hh
    refine ⟨by rw [hhero]; exact h1, by rw [hhero]; exact h2,
      by rw [hhero]; exact h3, fun hb => ?_⟩
    have hsp := h4 hb
    have hdelta := skill_points_setSkill_delta t.hero t.world r
      { getSkill t.world r with level := (getSkill t.world r).level - 1 } h3
    have hslev : ({ getSkill t.world r with
        level := (getSkill t.world r).level - 1 } : SkillInst).level =
        (getSkill t.world r).level - 1 := rfl
    rw [hslev] at hdelta
    unfold State.skill_points at hsp ⊢
    rw [hhero, hw, ← hdelta]
    split
    · split
      · omega
      · omega
    · omega
  | execute_skills en hr ih => exact ih h0

/-- C1 amended: in every state reachable from a freshly constructed hero,
`0 ≤ level ≤ max_level` holds; `skill_points ≥ 0` additionally holds in
every state reachable without `take_xp` — but `take_xp` does not preserve
it (a hero that de-levels below its invested skill points ends with
negative skill points, see the counterexample). -/
theorem hero_state_invariant (s0 s : State) (hf : Fresh s0) :
    (ReachableW true s0 s →
      0 ≤ s.hero.level ∧ levelLeMax s.hero.max_level s.hero.level) ∧
    (ReachableW false s0 s →
      0 ≤ s.hero.level ∧ levelLeMax s.hero.max_level s.hero.level ∧
        0 ≤ s.skill_points) := by
  obtain ⟨hl, hx, hml, hnd, hsk⟩ := hf
  have hsum : (s0.hero.skills.map (fun p => (getSkill s0.world p.2).level)).sum = 0 := by
    apply List.sum_eq_zero
    intro x hx
    obtain ⟨p, hp, rfl⟩ := List.mem_map.mp hx
    exact hsk p hp
  have hsp0 : s0.skill_points = 0 := by
    unfold State.skill_points Hero.skill_points
    rw [hsum, hl]
    omega
  have h0 : ∀ b : Bool, InvState b s0 := fun b =>
    ⟨by omega, hl ▸ hml, hnd, fun _ => by omega⟩
  constructor
  · intro hr
    obtain ⟨i1, i2, -, -⟩ := reachable_inv (h0 true) hr
    exact ⟨i1, i2⟩
  · intro hr
    obtain ⟨i1, i2, -, i4⟩ := reachable_inv (h0 false) hr
    exact ⟨i1, i2, i4 rfl⟩

/-- Witness for C1 amended: the fresh example state satisfies the
invariant (it is reachable from itself). -/
theorem hero_state_invariant_witness :
    Fresh exState0 ∧ 0 ≤ exState0.hero.level ∧
      levelLeMax exState0.hero.max_level exState0.hero.level ∧
      0 ≤ exState0.skill_points := by
  have hf : Fresh exState0 := by
    unfold Fresh
    refine ⟨rfl, rfl, trivial, by decide, by decide⟩
  exact ⟨hf, (hero_state_invariant exState0 exState0 hf).2 (.init false exState0)⟩

/-- Counterexample to C1 as stated: from a fresh hero owning one skill,
the sequence `give_xp 80`, `upgrade_skill`, `take_xp 1` is a legal
operation sequence, yet it reaches a state whose `skill_points` is `-1` —
`take_xp` does not preserve `skill_points ≥ 0`. -/
theorem skill_points_negative_reachable :
    Fresh exState0 ∧ ReachableW true exState0 exState3 ∧
      exState3.skill_points = -1 := by
  refine ⟨⟨rfl, rfl, trivial, by decide, by decide⟩, ?_, by decide⟩
  have h1 : exState0.give_xp 80 = .ok (exState1, [Notif.heroLevelUp 1]) := by
    simp [State.give_xp, Hero.give_xp, give_xp_loop, on_max_level,
      exState0, exState1]
  have h2 : exState1.upgrade_skill 0 = .ok (exState2, [Notif.skillUpgrade]) := by
    rfl
  have h3 : exState2.take_xp 1 = .ok (exState3, [Notif.heroLevelDown 1]) := by
    simp [State.take_xp, Hero.take_xp, take_xp_loop, set_level_checked,
      maxLevelLt, xp_quota, on_max_level, exState2, exState3]
  exact .take_xp 1 (.upgrade_skill 0 (.give_xp 80 (.init true exState0) h1) h2) h3

end Warcraft
